import Mathlib

/-!
Verification of the WaveRNN repository against its specification.

The repository's `src/` tree contains the training entrypoint
(`src/wavernn/train.py`) and the build script (`setup.py`).  The native
synthesis kernel (`src/kernel/kernel.cpp`, `gemv.cpp`, `ops.cpp`,
`timer.cpp`) is declared in `setup.py` but its sources are not present,
so the kernel-side data model and operations below are modelled from the
specification and marked as such; the train/export command logic is
embedded directly from `src/wavernn/train.py`.

Numeric convention: the kernel computes in IEEE-754 single precision;
the model uses exact rational arithmetic (`ℚ`), in which every value is
finite (no NaN/Inf is representable) and division by zero yields `0`.
-/

namespace WaveRNN

/-! ### GEMV Engine (modelled from the spec, §4.1) -/

/-- Modelled from the spec: dot product of two vectors, the row kernel of
the GEMV Engine (`src/kernel/gemv.cpp`, absent from `src/`). -/
def dot (xs ys : List ℚ) : ℚ := (List.zipWith (fun a b => a * b) xs ys).sum

/-- Modelled from the spec: matrix–vector product for a matrix of shape
(out_dim × in_dim), producing a vector of length out_dim. -/
def gemv (M : List (List ℚ)) (v : List ℚ) : List ℚ := M.map (fun row => dot row v)

/-- Modelled from the spec: matrix–vector product with a bias vector
added in the same call. -/
def gemvBias (M : List (List ℚ)) (v b : List ℚ) : List ℚ :=
  List.zipWith (fun a c => a + c) (gemv M v) b

/-- A straightforward reference dot-product computation, the comparison
point the spec names for GEMV correctness. -/
def refDot : List ℚ → List ℚ → ℚ
  | [], _ => 0
  | _ :: _, [] => 0
  | x :: xs, y :: ys => x * y + refDot xs ys

/-- Reference matrix–vector product built from `refDot`. -/
def refGemv (M : List (List ℚ)) (v : List ℚ) : List ℚ := M.map (fun row => refDot row v)

/-! ### Fused Activation/Sampling Ops (modelled from the spec, §4.2) -/

/-- Modelled from the spec: exponential-normalization of gate
pre-activations into a categorical distribution
(`src/kernel/ops.cpp`, absent from `src/`).  The elementwise exponential
map is a parameter `e`; the spec fixes only that the true `exp` is
strictly positive, so theorems take positivity of `e` as a hypothesis. -/
def softmaxWith (e : ℚ → ℚ) (logits : List ℚ) : List ℚ :=
  (logits.map e).map (fun x => x / (logits.map e).sum)

/-- Modelled from the spec: the internal-consistency check on a
categorical distribution — every probability is nonnegative and the
probabilities sum to 1.  In exact rational arithmetic every entry is
finite, so the spec's NaN/Inf corruption manifests here as a failed
nonnegativity or sum check. -/
def validDist (p : List ℚ) : Bool :=
  p.all (fun x => decide (0 ≤ x)) && decide (p.sum = 1)

/-- A strictly positive computable stand-in for the exponential map,
used to instantiate theorems at concrete inputs. -/
def posExp (x : ℚ) : ℚ := if 0 ≤ x then x + 1 else 1 / (1 - x)

/-- Sampling mode of the Fused Ops: deterministic argmax or a draw from
the categorical distribution using a supplied random source. -/
inductive SampleMode
  | argmax
  | random
deriving DecidableEq

/-- Helper for `argmaxIdx`: fold over the remaining probabilities
tracking the best index and value seen so far. -/
def argmaxAux : List ℚ → ℕ → ℕ → ℚ → ℕ
  | [], _, best, _ => best
  | x :: xs, i, best, bv =>
    if bv < x then argmaxAux xs (i + 1) i x else argmaxAux xs (i + 1) best bv

/-- Modelled from the spec: index of the maximal probability, the
deterministic (argmax) sampling path. -/
def argmaxIdx : List ℚ → ℕ
  | [] => 0
  | x :: xs => argmaxAux xs 1 0 x

/-- Modelled from the spec: inverse-CDF categorical draw using one
supplied random value. -/
def catDraw (r : ℚ) : List ℚ → ℕ
  | [] => 0
  | q :: rest => if r < q then 0 else catDraw (r - q) rest + 1

/-- Modelled from the spec: draw one symbol from a categorical
distribution; in argmax mode the supplied random value is ignored. -/
def sampleFrom (mode : SampleMode) (r : ℚ) (p : List ℚ) : ℕ :=
  match mode with
  | .argmax => argmaxIdx p
  | .random => catDraw r p

/-- Modelled from the spec: elementwise sigmoid, expressed through the
exponential parameter `e` (σ x = e x / (e x + 1)). -/
def sigmoidWith (e : ℚ → ℚ) (x : ℚ) : ℚ := e x / (e x + 1)

/-- Modelled from the spec: elementwise tanh, expressed through the
exponential parameter `e`. -/
def tanhWith (e : ℚ → ℚ) (x : ℚ) : ℚ := (e x - e (-x)) / (e x + e (-x))

/-! ### Weight Set and cell step (modelled from the spec, §3, §4.2–4.3) -/

/-- Modelled from the spec: the immutable Weight Set — gate projection
matrix and bias for the recurrent cell, and output projection matrix and
bias onto the discrete amplitude alphabet.  The exact cell variant is a
configurable parameter of the Weight Set per the spec's open question. -/
structure WeightSet where
  hiddenDim : ℕ
  Wg : List (List ℚ)
  bg : List ℚ
  Wo : List (List ℚ)
  bo : List ℚ
deriving DecidableEq

/-- A Weight Set is valid when the output projection is nonempty, i.e.
the discrete amplitude alphabet has at least one symbol. -/
def WeightSet.valid (ws : WeightSet) : Prop := ws.Wo ≠ [] ∧ ws.bo ≠ []

/-- Modelled from the spec: GRU-style gate combination — partition the
gate pre-activations into an update gate (sigmoid) and a candidate state
(tanh), then interpolate into the new hidden state. -/
def cellUpdate (e : ℚ → ℚ) (hidden preact : List ℚ) : List ℚ :=
  let n := hidden.length
  let z := (preact.take n).map (sigmoidWith e)
  let c := ((preact.drop n).take n).map (tanhWith e)
  List.zipWith (fun hz cand => hz.2 * hz.1 + (1 - hz.2) * cand) (hidden.zip z) c

/-- Modelled from the spec: the new Recurrent State of one step — cell
input is the concatenation of the previous sample and the conditioning
vector, projected by the gate GEMV and combined by the fused update. -/
def stepHidden (e : ℚ → ℚ) (ws : WeightSet) (hidden : List ℚ) (lastSample : ℕ)
    (cond : List ℚ) : List ℚ :=
  cellUpdate e hidden (gemvBias ws.Wg ((lastSample : ℚ) :: cond ++ hidden) ws.bg)

/-- Modelled from the spec: the categorical distribution of one step —
output projection of the new Recurrent State, exponential-normalized. -/
def stepProbs (e : ℚ → ℚ) (ws : WeightSet) (hidden : List ℚ) (lastSample : ℕ)
    (cond : List ℚ) : List ℚ :=
  softmaxWith e (gemvBias ws.Wo (stepHidden e ws hidden lastSample cond) ws.bo)

/-- Modelled from the spec: one full cell step.  Returns the new
Recurrent State and the sampled symbol, or `none` when the categorical
distribution fails the validity check (numeric corruption, fatal). -/
def stepFn (e : ℚ → ℚ) (ws : WeightSet) (mode : SampleMode) (r : ℚ)
    (hidden : List ℚ) (lastSample : ℕ) (cond : List ℚ) : Option (List ℚ × ℕ) :=
  if validDist (stepProbs e ws hidden lastSample cond) then
    some (stepHidden e ws hidden lastSample cond,
          sampleFrom mode r (stepProbs e ws hidden lastSample cond))
  else none

/-! ### Synthesis Driver (modelled from the spec, §4.3, §5, §7) -/

/-- Modelled from the spec: the Synthesis Driver's state machine. -/
inductive DriverState
  | UNINITIALIZED
  | READY
  | SYNTHESIZING
  | COMPLETE
  | ABORTED
deriving DecidableEq

/-- Modelled from the spec: the per-session state of the Synthesis
Driver — machine state, Recurrent State, Sample History (the most
recently emitted value) and the append-only Output Waveform. -/
structure Session where
  state : DriverState
  hidden : List ℚ
  lastSample : ℕ
  waveform : List ℕ
deriving DecidableEq

/-- Query interface: the driver's machine state. -/
def Session.queryState (s : Session) : DriverState := s.state

/-- Query interface: the Output Waveform produced so far. -/
def Session.querySamples (s : Session) : List ℕ := s.waveform

/-- Modelled from the spec: one driver iteration — run the cell step on
the session's Recurrent State and Sample History, append the emitted
sample and advance the history; `none` on numeric corruption. -/
def driverStep (e : ℚ → ℚ) (ws : WeightSet) (mode : SampleMode) (r : ℚ)
    (s : Session) (cond : List ℚ) : Option Session :=
  match stepFn e ws mode r s.hidden s.lastSample cond with
  | none => none
  | some (h, smp) =>
    some { state := DriverState.SYNTHESIZING, hidden := h, lastSample := smp,
           waveform := s.waveform ++ [smp] }

/-- The session produced by a successful driver iteration: new
Recurrent State, advanced Sample History, one sample appended. -/
def stepSession (e : ℚ → ℚ) (ws : WeightSet) (mode : SampleMode) (r : ℚ)
    (s : Session) (cond : List ℚ) : Session :=
  { state := DriverState.SYNTHESIZING,
    hidden := stepHidden e ws s.hidden s.lastSample cond,
    lastSample := sampleFrom mode r (stepProbs e ws s.hidden s.lastSample cond),
    waveform := s.waveform ++ [sampleFrom mode r (stepProbs e ws s.hidden s.lastSample cond)] }

/-- Modelled from the spec: the Synthesis Driver loop.  Each iteration
first performs the cooperative cancellation check (`cancelAt` names the
step count at which the session is aborted), then runs one step;
corruption aborts, exhausting the Conditioning Sequence completes.  The
random source `rng` is indexed by the number of samples produced. -/
def synthLoop (e : ℚ → ℚ) (ws : WeightSet) (mode : SampleMode) (rng : ℕ → ℚ)
    (cancelAt : Option ℕ) : Session → List (List ℚ) → Session
  | s, [] => { s with state := DriverState.COMPLETE }
  | s, c :: rest =>
    if cancelAt = some s.waveform.length then { s with state := DriverState.ABORTED }
    else
      match driverStep e ws mode (rng s.waveform.length) s c with
      | none => { s with state := DriverState.ABORTED }
      | some t => synthLoop e ws mode rng cancelAt t rest

/-- Modelled from the spec: the READY session — weights loaded, hidden
state zeroed, empty Output Waveform. -/
def initSession (ws : WeightSet) : Session :=
  { state := DriverState.READY, hidden := List.replicate ws.hiddenDim 0,
    lastSample := 0, waveform := [] }

/-- Modelled from the spec: one complete synthesis session over a
Conditioning Sequence. -/
def runSession (e : ℚ → ℚ) (ws : WeightSet) (mode : SampleMode) (rng : ℕ → ℚ)
    (cancelAt : Option ℕ) (conds : List (List ℚ)) : Session :=
  synthLoop e ws mode rng cancelAt (initSession ws) conds

/-! ### Train/export command logic, embedded from `src/wavernn/train.py` -/

namespace Train

/-- Name of the config file to store (`train.py`, `CONFIG_PATH`). -/
def CONFIG_PATH : String := "config.yaml"

/-- Where to store checkpoints (`train.py`, `CHECKPOINTS_DIR`). -/
def CHECKPOINTS_DIR : String := "checkpoints"

/-- Where to write the best checkpoint (`train.py`, `BEST_CHECKPOINT`). -/
def BEST_CHECKPOINT : String := "best"

/-- Embedding of `os.path.join` for the two-component joins used in
`train.py`. -/
def joinPath (a b : String) : String := a ++ "/" ++ b

/-- File-system model for the command logic: an association list of file
paths to contents, plus the set of existing directories. -/
structure FS where
  files : List (String × String)
  dirs : List String
deriving DecidableEq

/-- `os.path.exists` on a file path. -/
def FS.fileExists (fs : FS) (p : String) : Bool := fs.files.any (fun e => e.1 == p)

/-- `os.path.exists` on a directory path. -/
def FS.dirExists (fs : FS) (p : String) : Bool := fs.dirs.any (fun d => d == p)

/-- `os.path.exists`: true when a file or a directory with this path
exists. -/
def FS.pathExists (fs : FS) (p : String) : Bool := fs.fileExists p || fs.dirExists p

/-- Contents of a file, when present. -/
def FS.readFile (fs : FS) (p : String) : Option String :=
  (fs.files.find? (fun e => e.1 == p)).map (fun e => e.2)

/-- `shutil.copyfile src dst`: the destination now holds the source's
contents; every other file is untouched. -/
def FS.copyfile (fs : FS) (src dst : String) : FS :=
  { fs with files := (dst, (fs.readFile src).getD "") ::
      fs.files.filter (fun e => !(e.1 == dst)) }

/-- `os.makedirs path`: the directory now exists. -/
def FS.makedirs (fs : FS) (p : String) : FS := { fs with dirs := p :: fs.dirs }

/-- Outcome of the config-selection phase of the `train` command: either
a fatal `die_if` abort, or the path of the config file that will be
loaded together with the resulting file system. -/
inductive CmdResult
  | died (msg : String)
  | ok (loadedConfig : String) (fs : FS)
deriving DecidableEq

/-- Embedding of `train.py` lines 66–84: the config-selection phase of
the `train` command.  `die_if` lives in `wavernn.util`, which is not
under `src/`; modelled from the spec and its call sites as: abort the
command with the message when the condition holds.  When the saved
`config.yaml` exists (or `--config` was not passed) the saved file is
selected for loading and the file system is untouched; otherwise the
model directory is created and the `--config` file is copied in, and the
`--config` file itself is the one loaded. -/
def trainConfigPhase (config : Option String) (path : String) (fs : FS) : CmdResult :=
  if config.isNone && !(fs.pathExists path) then
    .died ("Since --config is not passed, directory " ++ path ++ " must exist")
  else
    if config.isNone || fs.pathExists (joinPath path CONFIG_PATH) then
      if !(fs.pathExists (joinPath path CONFIG_PATH)) then
        .died ("Missing config file " ++ joinPath path CONFIG_PATH)
      else .ok (joinPath path CONFIG_PATH) fs
    else
      .ok (config.getD "")
        ((fs.makedirs path).copyfile (config.getD "") (joinPath path CONFIG_PATH))

/-- Outcome of the `export` command: a fatal `die_if` abort, or an
export of the model loaded from the named checkpoint file. -/
inductive ExportResult
  | died (msg : String)
  | exported (checkpoint : String) (output : String)
deriving DecidableEq

/-- The checkpoint path the `export` command loads from
(`train.py` line 147). -/
def lastCkptPath (path : String) : String :=
  joinPath path (joinPath CHECKPOINTS_DIR "last.ckpt")

/-- The best-checkpoint path written by the training checkpoint callback
(`train.py` lines 112–118: `CHECKPOINTS_DIR`/`BEST_CHECKPOINT`.ckpt). -/
def bestCkptPath (path : String) : String :=
  joinPath path (joinPath CHECKPOINTS_DIR (BEST_CHECKPOINT ++ ".ckpt"))

/-- Embedding of `train.py` lines 140–155: the `export` command.
It dies when `config.yaml` is missing, then dies when
`checkpoints/last.ckpt` is missing, and otherwise exports the model
loaded from `checkpoints/last.ckpt`. -/
def exportCmd (path output : String) (fs : FS) : ExportResult :=
  if !(fs.pathExists (joinPath path CONFIG_PATH)) then
    .died ("Missing config file " ++ joinPath path CONFIG_PATH)
  else
    if !(fs.pathExists (lastCkptPath path)) then
      .died ("Missing checkpoint " ++ lastCkptPath path)
    else .exported (lastCkptPath path) output

end Train

/-! ### Concrete instances used to instantiate theorems -/

/-- A small concrete Weight Set (hidden size 2, conditioning width 1,
alphabet size 2) used to instantiate the driver theorems. -/
def demoWeights : WeightSet :=
  { hiddenDim := 2, Wg := [[1, 1, 1], [1, 1, 1]], bg := [0, 0],
    Wo := [[1, 1], [1, 1]], bo := [0, 0] }

/-- A Weight Set whose output projection yields a negative probability
under an identity "exponential" — a concrete numeric-corruption case. -/
def corruptWeights : WeightSet :=
  { hiddenDim := 0, Wg := [], bg := [], Wo := [[], []], bo := [-1, 2] }

/-- A model directory `m` that already holds a saved `config.yaml`. -/
def fsWithConfig : Train.FS := ⟨[("m/config.yaml", "cfg")], ["m"]⟩

/-- A file system holding only a loose `c.yaml`; the model directory `m`
and its saved config do not exist yet. -/
def fsNoConfig : Train.FS := ⟨[("c.yaml", "contents")], []⟩

/-- A model directory `m` with both `config.yaml` and
`checkpoints/last.ckpt` present. -/
def fsExportBoth : Train.FS :=
  ⟨[("m/config.yaml", "cfg"), ("m/checkpoints/last.ckpt", "w")], ["m"]⟩

/-! ### Helper lemmas -/

theorem posExp_pos (x : ℚ) : 0 < posExp x := by
  unfold posExp
  split_ifs with h
  · linarith
  · have hx : (0 : ℚ) < 1 - x := by push_neg at h; linarith
    exact div_pos one_pos hx

theorem sum_div_list (l : List ℚ) (s : ℚ) :
    (l.map (fun x => x / s)).sum = l.sum / s := by
  induction l with
  | nil => simp
  | cons a l ih => simp [ih, add_div]

theorem softmaxWith_sum (e : ℚ → ℚ) (l : List ℚ) (he : ∀ x, 0 < e x) (hl : l ≠ []) :
    (softmaxWith e l).sum = 1 := by
  have hpos : ∀ x ∈ l.map e, 0 < x := by
    intro x hx
    rcases List.mem_map.1 hx with ⟨y, _, rfl⟩
    exact he y
  have hne : l.map e ≠ [] := by simpa [List.map_eq_nil_iff] using hl
  have hs : 0 < (l.map e).sum := List.sum_pos _ hpos hne
  unfold softmaxWith
  rw [sum_div_list]
  exact div_self (ne_of_gt hs)

theorem softmaxWith_nonneg (e : ℚ → ℚ) (l : List ℚ) (he : ∀ x, 0 < e x) :
    ∀ p ∈ softmaxWith e l, 0 ≤ p := by
  intro p hp
  unfold softmaxWith at hp
  rcases List.mem_map.1 hp with ⟨a, ha, rfl⟩
  rcases List.mem_map.1 ha with ⟨y, hy, rfl⟩
  have hne : l ≠ [] := by
    intro hc
    rw [hc] at hy
    exact absurd hy (List.not_mem_nil y)
  have hpos : ∀ x ∈ l.map e, 0 < x := by
    intro x hx
    rcases List.mem_map.1 hx with ⟨z, _, rfl⟩
    exact he z
  have hs : 0 < (l.map e).sum :=
    List.sum_pos _ hpos (by simpa [List.map_eq_nil_iff] using hne)
  exact le_of_lt (div_pos (he y) hs)

theorem validDist_softmaxWith (e : ℚ → ℚ) (l : List ℚ) (he : ∀ x, 0 < e x)
    (hl : l ≠ []) : validDist (softmaxWith e l) = true := by
  unfold validDist
  rw [Bool.and_eq_true]
  constructor
  · rw [List.all_eq_true]
    intro x hx
    exact decide_eq_true (softmaxWith_nonneg e l he x hx)
  · exact decide_eq_true (softmaxWith_sum e l he hl)

theorem gemv_length (M : List (List ℚ)) (v : List ℚ) :
    (gemv M v).length = M.length := by
  unfold gemv
  exact List.length_map M _

theorem gemvBias_ne_nil (M : List (List ℚ)) (v b : List ℚ) (hM : M ≠ [])
    (hb : b ≠ []) : gemvBias M v b ≠ [] := by
  unfold gemvBias
  rw [Ne, List.zipWith_eq_nil_iff]
  push_neg
  refine ⟨?_, hb⟩
  unfold gemv
  simpa [List.map_eq_nil_iff] using hM

theorem stepFn_eq_some (e : ℚ → ℚ) (ws : WeightSet) (mode : SampleMode) (r : ℚ)
    (h : List ℚ) (l : ℕ) (c : List ℚ) (he : ∀ x, 0 < e x) (hws : ws.valid) :
    stepFn e ws mode r h l c =
      some (stepHidden e ws h l c, sampleFrom mode r (stepProbs e ws h l c)) := by
  have hv : validDist (stepProbs e ws h l c) = true := by
    unfold stepProbs
    exact validDist_softmaxWith e _ he (gemvBias_ne_nil _ _ _ hws.1 hws.2)
  simp [stepFn, hv]

theorem driverStep_eq_some (e : ℚ → ℚ) (ws : WeightSet) (mode : SampleMode)
    (r : ℚ) (s : Session) (c : List ℚ) (he : ∀ x, 0 < e x) (hws : ws.valid) :
    driverStep e ws mode r s c = some (stepSession e ws mode r s c) := by
  unfold driverStep stepSession
  rw [stepFn_eq_some e ws mode r s.hidden s.lastSample c he hws]

theorem dot_eq_refDot : ∀ xs ys : List ℚ, dot xs ys = refDot xs ys
  | [], ys => by simp [dot, refDot]
  | x :: xs, [] => by simp [dot, refDot]
  | x :: xs, y :: ys => by
    have ih := dot_eq_refDot xs ys
    simp only [dot, refDot, List.zipWith_cons_cons, List.sum_cons] at ih ⊢
    rw [ih]

theorem mem_zip_same {α : Type} : ∀ (l : List α) (p : α × α), p ∈ l.zip l → p.1 = p.2
  | [], p, h => absurd h (List.not_mem_nil p)
  | a :: l, p, h => by
    rcases List.mem_cons.1 (by simpa [List.zip_cons_cons] using h) with h1 | h1
    · rw [h1]
    · exact mem_zip_same l p h1

/-! ### Claim theorems -/

/-- C3: for every matrix of shape (out_dim × in_dim) and every input
vector, the GEMV Engine returns a vector of length out_dim equal to the
matrix–vector product (plus the bias vector when supplied in the same
call), matching the straightforward reference dot-product computation —
exactly in the rational model, hence within 1e-4 relative tolerance. -/
theorem C3_gemv_matches_reference (M : List (List ℚ)) (v b : List ℚ) :
    (gemv M v).length = M.length ∧
    gemv M v = refGemv M v ∧
    gemvBias M v b = List.zipWith (fun a c => a + c) (refGemv M v) b ∧
    ∀ p ∈ (gemv M v).zip (refGemv M v), |p.1 - p.2| ≤ 1 / 10000 * |p.2| := by
  have hg : gemv M v = refGemv M v := by
    unfold gemv refGemv
    simp only [dot_eq_refDot]
  refine ⟨gemv_length M v, hg, ?_, ?_⟩
  · unfold gemvBias
    rw [hg]
  · intro p hp
    rw [hg] at hp
    have hpe : p.1 = p.2 := mem_zip_same _ p hp
    rw [hpe, sub_self, abs_zero]
    positivity

/-- Instantiation of `C3_gemv_matches_reference` at a concrete matrix,
vector and bias. -/
theorem C3_gemv_matches_reference_witness :
    (gemv [[1, 2], [3, 4]] [5, 6]).length = 2 ∧
    gemv [[1, 2], [3, 4]] [5, 6] = refGemv [[1, 2], [3, 4]] [5, 6] ∧
    gemvBias [[1, 2], [3, 4]] [5, 6] [7, 8] =
      List.zipWith (fun a c => a + c) (refGemv [[1, 2], [3, 4]] [5, 6]) [7, 8] ∧
    ∀ p ∈ (gemv [[1, 2], [3, 4]] [5, 6]).zip (refGemv [[1, 2], [3, 4]] [5, 6]),
      |p.1 - p.2| ≤ 1 / 10000 * |p.2| := by
  have h := C3_gemv_matches_reference [[1, 2], [3, 4]] [5, 6] [7, 8]
  simpa using h

/-- C4: for every gate pre-activation vector (any magnitudes) and every
strictly positive exponential map, the categorical distribution produced
by the Fused Ops sums to 1 and has no negative entry; every entry of the
rational model is finite by construction, and the validity check
accepts the distribution. -/
theorem C4_softmax_valid_simplex (e : ℚ → ℚ) (logits : List ℚ)
    (he : ∀ x, 0 < e x) (hne : logits ≠ []) :
    (softmaxWith e logits).sum = 1 ∧
    (∀ p ∈ softmaxWith e logits, 0 ≤ p) ∧
    validDist (softmaxWith e logits) = true :=
  ⟨softmaxWith_sum e logits he hne, softmaxWith_nonneg e logits he,
   validDist_softmaxWith e logits he hne⟩

/-- Instantiation of `C4_softmax_valid_simplex` at gate pre-activations
of extreme magnitude with the positive map `posExp`. -/
theorem C4_softmax_valid_simplex_witness :
    (softmaxWith posExp [-1000000, 0, 1000000]).sum = 1 ∧
    (∀ p ∈ softmaxWith posExp [-1000000, 0, 1000000], 0 ≤ p) ∧
    validDist (softmaxWith posExp [-1000000, 0, 1000000]) = true :=
  C4_softmax_valid_simplex posExp [-1000000, 0, 1000000] posExp_pos (by decide)

theorem synthLoop_cons_step (e : ℚ → ℚ) (ws : WeightSet) (mode : SampleMode)
    (rng : ℕ → ℚ) (cancelAt : Option ℕ) (s : Session) (c : List ℚ)
    (rest : List (List ℚ)) (he : ∀ x, 0 < e x) (hws : ws.valid)
    (hc : ¬(cancelAt = some s.waveform.length)) :
    synthLoop e ws mode rng cancelAt s (c :: rest) =
      synthLoop e ws mode rng cancelAt
        (stepSession e ws mode (rng s.waveform.length) s c) rest := by
  simp [synthLoop, hc,
    driverStep_eq_some e ws mode (rng s.waveform.length) s c he hws]

theorem synthLoop_none_run (e : ℚ → ℚ) (ws : WeightSet) (mode : SampleMode)
    (rng : ℕ → ℚ) (he : ∀ x, 0 < e x) (hws : ws.valid) :
    ∀ (conds : List (List ℚ)) (s : Session),
      ∃ (t : List ℕ) (h l : _),
        t.length = conds.length ∧
        synthLoop e ws mode rng none s conds =
          { state := DriverState.COMPLETE, hidden := h, lastSample := l,
            waveform := s.waveform ++ t } := by
  intro conds
  induction conds with
  | nil =>
    intro s
    exact ⟨[], s.hidden, s.lastSample, rfl, by simp [synthLoop]⟩
  | cons c rest ih =>
    intro s
    obtain ⟨t, h, l, ht, heq⟩ := ih (stepSession e ws mode (rng s.waveform.length) s c)
    refine ⟨sampleFrom mode (rng s.waveform.length)
        (stepProbs e ws s.hidden s.lastSample c) :: t, h, l, by simp [ht], ?_⟩
    rw [synthLoop_cons_step e ws mode rng none s c rest he hws (by simp), heq]
    simp [stepSession]

theorem synthLoop_cancel_run (e : ℚ → ℚ) (ws : WeightSet) (mode : SampleMode)
    (rng : ℕ → ℚ) (he : ∀ x, 0 < e x) (hws : ws.valid) :
    ∀ (conds : List (List ℚ)) (s : Session) (k : ℕ),
      s.waveform.length ≤ k → k - s.waveform.length < conds.length →
      ∃ (h l : _),
        synthLoop e ws mode rng (some k) s conds =
          { state := DriverState.ABORTED, hidden := h, lastSample := l,
            waveform := (synthLoop e ws mode rng none s conds).waveform.take k } := by
  intro conds
  induction conds with
  | nil =>
    intro s k h1 h2
    simp at h2
  | cons c rest ih =>
    intro s k h1 h2
    by_cases hk : s.waveform.length = k
    · obtain ⟨t, fh, fl, ht, hfeq⟩ :=
        synthLoop_none_run e ws mode rng he hws (c :: rest) s
    -- cancellation triggers at this iteration: the session keeps exactly
    -- the samples already produced, which form the k-prefix of the full run
      refine ⟨s.hidden, s.lastSample, ?_⟩
      rw [hfeq]
      have htake : (s.waveform ++ t).take k = s.waveform := by
        rw [← hk]
        exact List.take_left s.waveform t
      simp [synthLoop, hk, htake]
    · have hlt : s.waveform.length < k := lt_of_le_of_ne h1 hk
      have hcond : ¬((some k : Option ℕ) = some s.waveform.length) := by
        simp
        omega
      obtain ⟨h, l, heq⟩ := ih (stepSession e ws mode (rng s.waveform.length) s c) k
        (by simp [stepSession]; omega)
        (by simp only [stepSession, List.length_append, List.length_cons] at h2 ⊢
            simp at h2 ⊢
            omega)
      rw [synthLoop_cons_step e ws mode rng (some k) s c rest he hws hcond,
          synthLoop_cons_step e ws mode rng none s c rest he hws (by simp), heq]
      exact ⟨h, l, rfl⟩

/-- C1: for every valid Weight Set (positive exponential map, nonempty
output alphabet) and every Conditioning Sequence of length N, one
complete synthesis session appends exactly N samples to the Output
Waveform and leaves the Synthesis Driver in state COMPLETE. -/
theorem C1_emits_exactly_N (e : ℚ → ℚ) (ws : WeightSet) (mode : SampleMode)
    (rng : ℕ → ℚ) (conds : List (List ℚ)) (he : ∀ x, 0 < e x) (hws : ws.valid) :
    (runSession e ws mode rng none conds).waveform.length = conds.length ∧
    (runSession e ws mode rng none conds).state = DriverState.COMPLETE := by
  obtain ⟨t, h, l, ht, heq⟩ :=
    synthLoop_none_run e ws mode rng he hws conds (initSession ws)
  unfold runSession
  rw [heq]
  exact ⟨by simp [initSession, ht], rfl⟩

/-- Instantiation of `C1_emits_exactly_N`: a concrete session over a
length-3 Conditioning Sequence emits exactly 3 samples and completes. -/
theorem C1_emits_exactly_N_witness :
    (runSession posExp demoWeights SampleMode.argmax (fun _ => 0) none
        [[0], [0], [0]]).waveform.length = 3 ∧
    (runSession posExp demoWeights SampleMode.argmax (fun _ => 0) none
        [[0], [0], [0]]).state = DriverState.COMPLETE := by
  have h := C1_emits_exactly_N posExp demoWeights SampleMode.argmax (fun _ => 0)
    [[0], [0], [0]] posExp_pos ⟨by decide, by decide⟩
  simpa using h

theorem stepFn_argmax_rng (e : ℚ → ℚ) (ws : WeightSet) (r₁ r₂ : ℚ)
    (h : List ℚ) (l : ℕ) (c : List ℚ) :
    stepFn e ws SampleMode.argmax r₁ h l c = stepFn e ws SampleMode.argmax r₂ h l c := by
  simp [stepFn, sampleFrom]

theorem driverStep_argmax_rng (e : ℚ → ℚ) (ws : WeightSet) (r₁ r₂ : ℚ)
    (s : Session) (c : List ℚ) :
    driverStep e ws SampleMode.argmax r₁ s c = driverStep e ws SampleMode.argmax r₂ s c := by
  unfold driverStep
  rw [stepFn_argmax_rng e ws r₁ r₂ s.hidden s.lastSample c]

theorem synthLoop_argmax_rng (e : ℚ → ℚ) (ws : WeightSet) (cancelAt : Option ℕ)
    (rng₁ rng₂ : ℕ → ℚ) :
    ∀ (conds : List (List ℚ)) (s : Session),
      synthLoop e ws SampleMode.argmax rng₁ cancelAt s conds =
      synthLoop e ws SampleMode.argmax rng₂ cancelAt s conds := by
  intro conds
  induction conds with
  | nil => intro s; simp [synthLoop]
  | cons c rest ih =>
    intro s
    by_cases hc : cancelAt = some s.waveform.length
    · simp [synthLoop, hc]
    · have hd := driverStep_argmax_rng e ws (rng₁ s.waveform.length)
        (rng₂ s.waveform.length) s c
      cases hd2 : driverStep e ws SampleMode.argmax (rng₂ s.waveform.length) s c with
      | none => simp [synthLoop, hc, hd, hd2]
      | some t => simp [synthLoop, hc, hd, hd2, ih]

/-- C2: with sampling mode set to deterministic (argmax), two complete
synthesis runs over the same Weight Set and Conditioning Sequence
produce identical final sessions — in particular bit-identical Output
Waveforms — whatever random sources the two runs are supplied with. -/
theorem C2_argmax_deterministic (e : ℚ → ℚ) (ws : WeightSet)
    (rng₁ rng₂ : ℕ → ℚ) (conds : List (List ℚ)) :
    runSession e ws SampleMode.argmax rng₁ none conds =
    runSession e ws SampleMode.argmax rng₂ none conds := by
  unfold runSession
  exact synthLoop_argmax_rng e ws none rng₁ rng₂ conds (initSession ws)

/-- Instantiation of `C2_argmax_deterministic` at two distinct random
sources over a concrete Weight Set and Conditioning Sequence. -/
theorem C2_argmax_deterministic_witness :
    runSession posExp demoWeights SampleMode.argmax (fun _ => 0) none [[0], [1]] =
    runSession posExp demoWeights SampleMode.argmax (fun n => (n : ℚ) + 7) none
      [[0], [1]] :=
  C2_argmax_deterministic posExp demoWeights (fun _ => 0) (fun n => (n : ℚ) + 7)
    [[0], [1]]

/-- C5: aborting a session at step k (cancellation checked between
steps) leaves the driver in state ABORTED with exactly the k samples
already produced — the intact k-prefix of the uninterrupted run's Output
Waveform — and the query interface yields these well-defined values. -/
theorem C5_abort_leaves_k_samples (e : ℚ → ℚ) (ws : WeightSet) (mode : SampleMode)
    (rng : ℕ → ℚ) (conds : List (List ℚ)) (k : ℕ) (he : ∀ x, 0 < e x)
    (hws : ws.valid) (hk : k < conds.length) :
    (runSession e ws mode rng (some k) conds).queryState = DriverState.ABORTED ∧
    (runSession e ws mode rng (some k) conds).querySamples.length = k ∧
    (runSession e ws mode rng (some k) conds).querySamples =
      (runSession e ws mode rng none conds).querySamples.take k := by
  obtain ⟨h, l, heq⟩ := synthLoop_cancel_run e ws mode rng he hws conds
    (initSession ws) k (by simp [initSession]) (by simp [initSession]; omega)
  obtain ⟨t, fh, fl, ht, hfeq⟩ :=
    synthLoop_none_run e ws mode rng he hws conds (initSession ws)
  unfold runSession Session.queryState Session.querySamples
  rw [heq]
  refine ⟨rfl, ?_, rfl⟩
  rw [hfeq]
  simp [initSession, List.length_take, ht]
  omega

/-- Instantiation of `C5_abort_leaves_k_samples`: cancelling a concrete
session at step 1 of 3. -/
theorem C5_abort_leaves_k_samples_witness :
    (runSession posExp demoWeights SampleMode.argmax (fun _ => 0) (some 1)
        [[0], [0], [0]]).queryState = DriverState.ABORTED ∧
    (runSession posExp demoWeights SampleMode.argmax (fun _ => 0) (some 1)
        [[0], [0], [0]]).querySamples.length = 1 ∧
    (runSession posExp demoWeights SampleMode.argmax (fun _ => 0) (some 1)
        [[0], [0], [0]]).querySamples =
      (runSession posExp demoWeights SampleMode.argmax (fun _ => 0) none
        [[0], [0], [0]]).querySamples.take 1 :=
  C5_abort_leaves_k_samples posExp demoWeights SampleMode.argmax (fun _ => 0)
    [[0], [0], [0]] 1 posExp_pos ⟨by decide, by decide⟩ (by decide)

/-- C6: when normalization yields a corrupted categorical distribution —
here a negative probability, the exact-arithmetic face of NaN/negative
corruption — the Synthesis Driver treats the step as fatal: the session
transitions to ABORTED with its Output Waveform unchanged (exactly the
samples already produced) and the remaining conditioning vectors are
never consumed. -/
theorem C6_corruption_aborts (e : ℚ → ℚ) (ws : WeightSet) (mode : SampleMode)
    (rng : ℕ → ℚ) (s : Session) (c : List ℚ) (rest : List (List ℚ))
    (hneg : ∃ p ∈ stepProbs e ws s.hidden s.lastSample c, p < 0) :
    synthLoop e ws mode rng none s (c :: rest) = { s with state := DriverState.ABORTED } := by
  have hvd : validDist (stepProbs e ws s.hidden s.lastSample c) = false := by
    rcases hneg with ⟨p, hp, hplt⟩
    have hnt : ¬(validDist (stepProbs e ws s.hidden s.lastSample c) = true) := by
      intro hv
      unfold validDist at hv
      rw [Bool.and_eq_true, List.all_eq_true] at hv
      have h0 := hv.1 p hp
      rw [decide_eq_true_iff] at h0
      linarith
    exact Bool.eq_false_iff.mpr hnt
  have hstep : stepFn e ws mode (rng s.waveform.length) s.hidden s.lastSample c = none := by
    simp [stepFn, hvd]
  simp [synthLoop, driverStep, hstep]

section
attribute [local semireducible] Rat.add Rat.mul Rat.inv Rat.sub

/-- Instantiation of `C6_corruption_aborts`: under an identity
"exponential", `corruptWeights` yields the distribution [-1, 2] with a
negative probability, and the driver aborts without consuming input. -/
theorem C6_corruption_aborts_witness :
    (∃ p ∈ stepProbs (fun x => x) corruptWeights ([] : List ℚ) 0 ([] : List ℚ),
      p < 0) ∧
    synthLoop (fun x => x) corruptWeights SampleMode.argmax (fun _ => 0) none
        ⟨DriverState.READY, [], 0, []⟩ [[]] =
      ⟨DriverState.ABORTED, [], 0, []⟩ := by
  have h := C6_corruption_aborts (fun x => x) corruptWeights SampleMode.argmax
    (fun _ => 0) ⟨DriverState.READY, [], 0, []⟩ [] [] (by decide)
  exact ⟨by decide, h⟩

end

/-- C8: a step's result — new Recurrent State, sampled value, and the
session it commits — is fully determined by the Recurrent State, the
Sample History, the Weight Set and the conditioning vector: two sessions
agreeing on hidden state and last sample produce identical step results,
with no dependence on any other session state (machine state or
accumulated waveform). -/
theorem C8_step_determined_by_inputs (e : ℚ → ℚ) (ws : WeightSet)
    (mode : SampleMode) (r : ℚ) (s₁ s₂ : Session) (c : List ℚ)
    (hh : s₁.hidden = s₂.hidden) (hl : s₁.lastSample = s₂.lastSample) :
    stepFn e ws mode r s₁.hidden s₁.lastSample c =
      stepFn e ws mode r s₂.hidden s₂.lastSample c ∧
    Option.map (fun t => (t.hidden, t.lastSample)) (driverStep e ws mode r s₁ c) =
      Option.map (fun t => (t.hidden, t.lastSample)) (driverStep e ws mode r s₂ c) := by
  constructor
  · rw [hh, hl]
  · unfold driverStep
    rw [hh, hl]
    cases stepFn e ws mode r s₂.hidden s₂.lastSample c with
    | none => rfl
    | some p => rfl

/-- Instantiation of `C8_step_determined_by_inputs`: two sessions in
different machine states with different waveforms but equal hidden state
and sample history take identical steps. -/
theorem C8_step_determined_by_inputs_witness :
    stepFn posExp demoWeights SampleMode.argmax 0
        (Session.mk DriverState.SYNTHESIZING [1, 1] 2 [5, 6]).hidden
        (Session.mk DriverState.SYNTHESIZING [1, 1] 2 [5, 6]).lastSample [0] =
      stepFn posExp demoWeights SampleMode.argmax 0
        (Session.mk DriverState.READY [1, 1] 2 []).hidden
        (Session.mk DriverState.READY [1, 1] 2 []).lastSample [0] ∧
    Option.map (fun t => (t.hidden, t.lastSample))
        (driverStep posExp demoWeights SampleMode.argmax 0
          (Session.mk DriverState.SYNTHESIZING [1, 1] 2 [5, 6]) [0]) =
      Option.map (fun t => (t.hidden, t.lastSample))
        (driverStep posExp demoWeights SampleMode.argmax 0
          (Session.mk DriverState.READY [1, 1] 2 []) [0]) :=
  C8_step_determined_by_inputs posExp demoWeights SampleMode.argmax 0
    (Session.mk DriverState.SYNTHESIZING [1, 1] 2 [5, 6])
    (Session.mk DriverState.READY [1, 1] 2 []) [0] rfl rfl

theorem string_append_right_ne (p : String) {s t : String} (h : s ≠ t) :
    p ++ s ≠ p ++ t := by
  intro hc
  apply h
  apply String.ext
  have hd := congrArg String.data hc
  rw [String.data_append, String.data_append] at hd
  exact List.append_cancel_left hd

theorem lastCkpt_ne_bestCkpt (path : String) :
    Train.lastCkptPath path ≠ Train.bestCkptPath path := by
  unfold Train.lastCkptPath Train.bestCkptPath Train.joinPath
  exact string_append_right_ne (path ++ "/") (by decide)

/-- C9: when the model directory already contains a saved `config.yaml`,
the `train` command selects that saved file for loading and leaves the
file system untouched — never overwriting it, even when a different file
is passed via `--config`; and the `--config` file is copied into the
model directory exactly when no saved `config.yaml` exists there yet. -/
theorem C9_saved_config_preserved (config : Option String) (path : String)
    (fs : Train.FS) :
    (fs.pathExists path = true →
     fs.pathExists (Train.joinPath path Train.CONFIG_PATH) = true →
       Train.trainConfigPhase config path fs =
         Train.CmdResult.ok (Train.joinPath path Train.CONFIG_PATH) fs) ∧
    (∀ c, config = some c →
     fs.pathExists (Train.joinPath path Train.CONFIG_PATH) = false →
       Train.trainConfigPhase config path fs =
         Train.CmdResult.ok c
           ((fs.makedirs path).copyfile c (Train.joinPath path Train.CONFIG_PATH))) := by
  constructor
  · intro hdir hsaved
    simp [Train.trainConfigPhase, hdir, hsaved]
  · intro c hc hsaved
    subst hc
    simp [Train.trainConfigPhase, hsaved]

/-- Instantiation of `C9_saved_config_preserved`: a directory with a
saved config keeps it even under `--config other.yaml`, and a fresh
directory receives a copy of the `--config` file. -/
theorem C9_saved_config_preserved_witness :
    Train.trainConfigPhase (some "other.yaml") "m" fsWithConfig =
      Train.CmdResult.ok (Train.joinPath "m" Train.CONFIG_PATH) fsWithConfig ∧
    Train.trainConfigPhase (some "c.yaml") "m" fsNoConfig =
      Train.CmdResult.ok "c.yaml"
        ((fsNoConfig.makedirs "m").copyfile "c.yaml"
          (Train.joinPath "m" Train.CONFIG_PATH)) :=
  ⟨(C9_saved_config_preserved (some "other.yaml") "m" fsWithConfig).1
      (by decide) (by decide),
   (C9_saved_config_preserved (some "c.yaml") "m" fsNoConfig).2 "c.yaml" rfl
      (by decide)⟩

/-- C10: the `export` command dies (via `die_if`) when the model
directory lacks `config.yaml`, dies when it lacks
`checkpoints/last.ckpt`, and when both exist it always exports the model
loaded from `checkpoints/last.ckpt` — a path distinct from the best
checkpoint `checkpoints/best.ckpt`, which is never loaded. -/
theorem C10_export_uses_last_checkpoint (path output : String) (fs : Train.FS) :
    (fs.pathExists (Train.joinPath path Train.CONFIG_PATH) = false →
       Train.exportCmd path output fs =
         Train.ExportResult.died
           ("Missing config file " ++ Train.joinPath path Train.CONFIG_PATH)) ∧
    (fs.pathExists (Train.joinPath path Train.CONFIG_PATH) = true →
     fs.pathExists (Train.lastCkptPath path) = false →
       Train.exportCmd path output fs =
         Train.ExportResult.died
           ("Missing checkpoint " ++ Train.lastCkptPath path)) ∧
    (fs.pathExists (Train.joinPath path Train.CONFIG_PATH) = true →
     fs.pathExists (Train.lastCkptPath path) = true →
       Train.exportCmd path output fs =
         Train.ExportResult.exported (Train.lastCkptPath path) output ∧
       Train.lastCkptPath path ≠ Train.bestCkptPath path) := by
  refine ⟨?_, ?_, ?_⟩
  · intro h1
    simp [Train.exportCmd, h1]
  · intro h1 h2
    simp [Train.exportCmd, h1, h2]
  · intro h1 h2
    exact ⟨by simp [Train.exportCmd, h1, h2], lastCkpt_ne_bestCkpt path⟩

/-- Instantiation of `C10_export_uses_last_checkpoint` on three concrete
file systems: missing config, missing checkpoint, and both present. -/
theorem C10_export_uses_last_checkpoint_witness :
    Train.exportCmd "m" "out" fsNoConfig =
      Train.ExportResult.died
        ("Missing config file " ++ Train.joinPath "m" Train.CONFIG_PATH) ∧
    Train.exportCmd "m" "out" fsWithConfig =
      Train.ExportResult.died
        ("Missing checkpoint " ++ Train.lastCkptPath "m") ∧
    (Train.exportCmd "m" "out" fsExportBoth =
       Train.ExportResult.exported (Train.lastCkptPath "m") "out" ∧
     Train.lastCkptPath "m" ≠ Train.bestCkptPath "m") :=
  ⟨(C10_export_uses_last_checkpoint "m" "out" fsNoConfig).1 (by decide),
   (C10_export_uses_last_checkpoint "m" "out" fsWithConfig).2.1
      (by decide) (by decide),
   (C10_export_uses_last_checkpoint "m" "out" fsExportBoth).2.2
      (by decide) (by decide)⟩

end WaveRNN
